import Mathlib

/-!
Verification of the agent-orchestration core of the cold-outreach repository
(src/orchestrator/agent.py and src/orchestrator/db.py).

The Python source is shallowly embedded: each relevant Python function is
translated into an executable Lean definition over explicit state, and the
spec claims are settled as theorems about those definitions.

Conventions used in the embedding:
* Python exceptions raised by a tool implementation are modelled by
  an Except String result of the abstract tool executor.
* The language-model call is a black box: an oracle function from the turn
  index to a post-retry outcome, and (for the retry policy itself) an oracle
  from the attempt index to a per-attempt outcome.
* The thread pool used for parallel tool execution is modelled by an
  arbitrary completion order (a permutation of the submitted blocks):
  the Python code collects results from as_completed into a dict keyed by
  tool_use id and then rebuilds the result list in invocation order.
* Observer callbacks (on_text / on_tool_call / on_tool_result) never affect
  control flow or the transcript in the source, so they are not modelled.
-/

namespace ColdOutreach

/-! ### String primitives

Python string operations are modelled by structurally recursive functions
on the character list of a String (the core library versions use
well-founded recursion on byte positions, which the kernel cannot reduce,
so concrete claims could not be settled by decide with them).
Lowercasing is ASCII (as is Char.toLower); every input the claims touch
is ASCII or is never lowercased. -/

/-- Is pat a prefix of l? -/
def isPrefixList : List Char → List Char → Bool
  | [], _ => true
  | _ :: _, [] => false
  | p :: ps, c :: cs => p == c && isPrefixList ps cs

/-- Does pat occur as a contiguous substring? -/
def containsSubAux (pat : List Char) : List Char → Bool
  | [] => isPrefixList pat []
  | c :: cs => isPrefixList pat (c :: cs) || containsSubAux pat cs

/-- The Python operator "pat in s" on strings. -/
def containsSub (s pat : String) : Bool :=
  containsSubAux pat.toList s.toList

/-- Split a character list at every separator character (Python
str.split(sep) keeps empty fields). -/
def splitBy (p : Char → Bool) : List Char → List (List Char)
  | [] => [[]]
  | c :: cs =>
    match splitBy p cs with
    | [] => [[c]]
    | h :: t => if p c then [] :: h :: t else (c :: h) :: t

/-- Python s.split(sep) for a one-character separator. -/
def pySplit (s : String) (sep : Char) : List String :=
  (splitBy (fun c => c == sep) s.toList).map String.mk

/-- Python str.split() — split on whitespace runs, dropping empties. -/
def pyWords (s : String) : List String :=
  ((splitBy Char.isWhitespace s.toList).map String.mk).filter fun w => w ≠ ""

/-- Python str.lower() (ASCII range, like Char.toLower). -/
def pyLower (s : String) : String :=
  String.mk (s.toList.map Char.toLower)

/-- Python str.strip() with no argument. -/
def pyTrim (s : String) : String :=
  String.mk
    (((s.toList.dropWhile Char.isWhitespace).reverse.dropWhile Char.isWhitespace).reverse)

/-- Python str.startswith. -/
def pyStartsWith (s pre : String) : Bool :=
  isPrefixList pre.toList s.toList

/-- Python sep.join(l). -/
def joinSep (sep : String) : List String → String
  | [] => ""
  | [x] => x
  | x :: y :: xs => x ++ sep ++ joinSep sep (y :: xs)

/-! ### Data model: transcript, content blocks, tool results -/

/-- A tool_use content block returned by the model
(id, name, input of a tool invocation). The argument mapping is opaque
to the loop, so it is modelled as a string. -/
structure ToolBlock where
  id : String
  name : String
  input : String
  deriving Repr, DecidableEq

/-- One block of assistant content: a text block or a tool_use block. -/
inductive ContentBlock where
  | text (s : String)
  | toolUse (b : ToolBlock)
  deriving Repr, DecidableEq

/-- Stop reason of a model response (agent.py checks the strings
"max_tokens" and "end_turn"; every other stop reason behaves like
tool_use with respect to the loop). -/
inductive StopReason where
  | endTurn
  | maxTokens
  | toolUse
  deriving Repr, DecidableEq

/-- A model response: ordered content blocks plus a stop reason. -/
structure Response where
  content : List ContentBlock
  stopReason : StopReason
  deriving Repr, DecidableEq

/-- One tool_result entry ("type": "tool_result", keyed by tool_use_id). -/
structure ToolResult where
  tool_use_id : String
  content : String
  deriving Repr, DecidableEq

/-- A transcript turn. In the Python source a ToolResultBatch is a
user-role message whose content is the list of tool_result dicts. -/
inductive Message where
  | user (content : String)
  | assistant (content : List ContentBlock)
  | toolResults (results : List ToolResult)
  deriving Repr, DecidableEq

/-- The abstract tool executor (self._execute_tool): ok is the returned
string, error is a raised exception rendered as its message. -/
def ToolExec : Type := String → String → Except String String

/-- Extract the tool_use blocks of assistant content, in order
(agent.py: tool_blocks = [b for b in assistant_content if b.type == "tool_use"]). -/
def toolUseBlocks (content : List ContentBlock) : List ToolBlock :=
  content.filterMap fun
    | .toolUse b => some b
    | .text _ => none

/-- Extract the text blocks of assistant content, in order. -/
def textParts (content : List ContentBlock) : List String :=
  content.filterMap fun
    | .text s => some s
    | .toolUse _ => none

/-- Execute one tool block, converting a raised exception into an
"Error: ..." string (agent.py lines 197-209 and 223-228). -/
def execOne (exec : ToolExec) (b : ToolBlock) : String :=
  match exec b.name b.input with
  | .ok r => r
  | .error e => "Error: " ++ e

/-- The results_map built from the worker pool: pairs (block id, result)
in completion order (agent.py: for f in as_completed(futures)). -/
def resultsMapFrom (exec : ToolExec) (completed : List ToolBlock) :
    List (String × String) :=
  completed.map fun b => (b.id, execOne exec b)

/-- Dictionary lookup in the results map (results_map[b.id]). -/
def lookupResult (m : List (String × String)) (id : String) : String :=
  ((m.find? fun p => p.1 == id).map Prod.snd).getD ""

/-- Build the tool_result batch for one turn.  With more than one block the
source executes in a thread pool and reassembles results by iterating the
blocks in invocation order, looking each id up in the completion map;
with a single block it executes synchronously (agent.py lines 193-235). -/
def buildToolResults (exec : ToolExec) (blocks completed : List ToolBlock) :
    List ToolResult :=
  if blocks.length > 1 then
    let m := resultsMapFrom exec completed
    blocks.map fun b => { tool_use_id := b.id, content := lookupResult m b.id }
  else
    blocks.map fun b => { tool_use_id := b.id, content := execOne exec b }

/-! ### Retry policy (BaseAgent._api_call_with_retry) -/

/-- Outcome of one raw attempt of client.messages.create. -/
inductive ApiOutcome where
  | ok (r : Response)
  | rateLimited
  | statusErr (code : Nat)
  | otherErr

/-- Errors that can escape the retry wrapper. -/
inductive RunError where
  | retriesExhausted
  | status (code : Nat)
  | otherErr
  deriving Repr, DecidableEq

/-- _RATE_LIMIT_MAX_RETRIES. -/
def RATE_LIMIT_MAX_RETRIES : Nat := 5

/-- _RATE_LIMIT_BASE_WAIT (seconds). -/
def RATE_LIMIT_BASE_WAIT : Nat := 65

/-- An attempt is retried (rather than propagated) exactly when it is a
RateLimitError or an APIStatusError with status 529. -/
def retryable : ApiOutcome → Prop
  | .rateLimited => True
  | .statusErr c => c = 529
  | _ => False

/-- The wait performed after a failed attempt with 0-based index i:
65 * (i + 1) for a rate limit, 30 * (i + 1) for an overload. -/
def waitFor (o : ApiOutcome) (i : Nat) : Nat :=
  match o with
  | .rateLimited => RATE_LIMIT_BASE_WAIT * (i + 1)
  | _ => 30 * (i + 1)

/-- The retry loop of _api_call_with_retry: attempt is the 0-based
attempt index, left the number of loop iterations remaining.  Returns the
final result together with the list of sleeps performed, in order. -/
def retryAux (outcomes : Nat → ApiOutcome) (attempt : Nat) :
    Nat → Except RunError Response × List Nat
  | 0 => (.error .retriesExhausted, [])
  | left + 1 =>
    match outcomes attempt with
    | .ok r => (.ok r, [])
    | .rateLimited =>
      let rest := retryAux outcomes (attempt + 1) left
      (rest.1, RATE_LIMIT_BASE_WAIT * (attempt + 1) :: rest.2)
    | .statusErr c =>
      if c = 529 then
        let rest := retryAux outcomes (attempt + 1) left
        (rest.1, 30 * (attempt + 1) :: rest.2)
      else (.error (.status c), [])
    | .otherErr => (.error .otherErr, [])

/-- BaseAgent._api_call_with_retry, given the per-attempt outcome oracle. -/
def apiCallWithRetry (outcomes : Nat → ApiOutcome) :
    Except RunError Response × List Nat :=
  retryAux outcomes 0 RATE_LIMIT_MAX_RETRIES

/-! ### The agent loop (BaseAgent.run) -/

/-- Subclass hooks threaded through the loop; σ is the subclass state
(mutated by _should_continue and _maybe_reset_conversation). -/
structure AgentHooks (σ : Type) where
  shouldContinue : σ → σ × Option String
  maybeReset : σ → List Message → Nat → σ × Option (List Message)

/-- The wrap-up instruction injected on max_tokens truncation when
_should_continue returns None (agent.py lines 169-176). -/
def truncationWrapUpMsg : String :=
  "응답이 잘렸습니다. 요약은 생략하고 남은 작업이 있으면 " ++
  "도구를 호출해서 계속 진행하세요. " ++
  "모든 작업이 끝났으면 간단히 완료라고만 말해주세요."

/-- The save-now instruction appended after MAX_TURNS is exhausted
(agent.py lines 242-248). -/
def maxTurnsSaveMsg : String :=
  "⚠️ 턴 한도에 도달했습니다. 지금까지 찾은 결과를 즉시 add_contacts로 저장하세요. " ++
  "아직 처리하지 못한 회사가 있어도, 지금까지의 결과만이라도 저장해주세요."

/-- The sentinel returned when the turn budget is exhausted. -/
def maxTurnsSentinel : String :=
  "(Agent reached maximum turns — partial results saved)"

/-- Result of processing one model response inside the loop. -/
inductive StepOutcome (σ : Type) where
  | finished (text : String) (st : σ) (msgs : List Message)
  | next (st : σ) (msgs : List Message)

/-- One iteration of the loop body of BaseAgent.run after the model call
returned (agent.py lines 148-238): append the assistant turn, branch on
truncation / natural end / tool use, execute tools, append the result
batch.  completed is the order in which the worker pool completed the
blocks of this turn. -/
def loopStep {σ : Type} (hooks : AgentHooks σ) (exec : ToolExec)
    (completed : List ToolBlock) (st : σ) (messages : List Message)
    (resp : Response) : StepOutcome σ :=
  let messages := messages ++ [.assistant resp.content]
  let toolBlocks := toolUseBlocks resp.content
  if resp.stopReason = .maxTokens ∧ toolBlocks = [] then
    match hooks.shouldContinue st with
    | (st', some m) => .next st' (messages ++ [.user m])
    | (st', none) => .next st' (messages ++ [.user truncationWrapUpMsg])
  else if resp.stopReason = .endTurn ∧ toolBlocks = [] then
    match hooks.shouldContinue st with
    | (st', some m) => .next st' (messages ++ [.user m])
    | (st', none) => .finished (joinSep "\n" (textParts resp.content)) st' messages
  else
    let rs := buildToolResults exec toolBlocks completed
    .next st (if rs.isEmpty then messages else messages ++ [.toolResults rs])

/-- Result of the bounded loop of BaseAgent.run. -/
inductive LoopResult (σ : Type) where
  | finished (text : String) (st : σ) (msgs : List Message)
  | fatal (e : RunError) (st : σ) (msgs : List Message)
  | exhausted (st : σ) (msgs : List Message)

/-- The bounded loop (for turn in range(MAX_TURNS)). api gives the
post-retry outcome of the model call of each turn; order gives the worker
pool completion order of each turn. fuel is the number of turns left. -/
def runLoop {σ : Type} (hooks : AgentHooks σ) (exec : ToolExec)
    (api : Nat → Except RunError Response) (order : Nat → List ToolBlock) :
    Nat → Nat → σ → List Message → LoopResult σ
  | 0, _, st, msgs => .exhausted st msgs
  | fuel + 1, turn, st, msgs =>
    let reset := hooks.maybeReset st msgs turn
    let st := reset.1
    let msgs := match reset.2 with
      | some m => m
      | none => msgs
    match api turn with
    | .error e => .fatal e st msgs
    | .ok resp =>
      match loopStep hooks exec (order turn) st msgs resp with
      | .finished t st' m => .finished t st' m
      | .next st' m => runLoop hooks exec api order fuel (turn + 1) st' m

/-- The tool executions performed during the final best-effort save turn
(name, result-or-error); exceptions are swallowed and results discarded
(agent.py lines 258-268). -/
def finalToolExecs (exec : ToolExec) (content : List ContentBlock) :
    List (String × String) :=
  (toolUseBlocks content).map fun b => (b.name, execOne exec b)

/-- BaseAgent.run: the bounded loop, then on exhaustion one corrective
save-now user turn, exactly one additional model call (its failure is
caught), execution of any resulting tool calls, and the fixed sentinel.
Returns the final text, the final transcript, and the tool executions of
the final save turn (empty unless the turn budget was exhausted). -/
def runAgent {σ : Type} (hooks : AgentHooks σ) (exec : ToolExec)
    (api : Nat → Except RunError Response) (order : Nat → List ToolBlock)
    (maxTurns : Nat) (st0 : σ) (userRequest : String) :
    Except RunError (String × List Message × List (String × String)) :=
  match runLoop hooks exec api order maxTurns 0 st0 [.user userRequest] with
  | .finished t _ m => .ok (t, m, [])
  | .fatal e _ _ => .error e
  | .exhausted _ m =>
    let m := m ++ [.user maxTurnsSaveMsg]
    match api maxTurns with
    | .error _ => .ok (maxTurnsSentinel, m, [])
    | .ok resp => .ok (maxTurnsSentinel, m, finalToolExecs exec resp.content)

/-! ### Title matching utilities (agent.py lines 461-572) -/

/-- _TITLE_EXPANSIONS, in source (dict insertion) order. -/
def TITLE_EXPANSIONS : List (String × List String) :=
  [ ("r&d", ["research", "development", "research and development", "r&d"]),
    ("bd", ["business development", "bd", "biz dev"]),
    ("cso", ["chief scientific officer", "cso"]),
    ("cmo", ["chief medical officer", "cmo"]),
    ("cto", ["chief technology officer", "cto"]),
    ("cbo", ["chief business officer", "cbo"]),
    ("vp", ["vice president", "vp", "v.p."]),
    ("svp", ["senior vice president", "svp", "sr vice president"]),
    ("evp", ["executive vice president", "evp"]),
    ("dir", ["director", "dir"]),
    ("sr", ["senior", "sr", "sr."]),
    ("assoc", ["associate", "assoc"]),
    ("mgr", ["manager", "mgr"]),
    ("hd", ["head", "hd"]) ]

/-- _EXCLUDE_DEPARTMENTS (a Python set; only membership-by-substring is
used, so the order of this list is irrelevant). -/
def EXCLUDE_DEPARTMENTS : List String :=
  [ "finance", "accounting", "legal", "compliance", "hr", "human resources",
    "human resource", "talent", "recruiting", "recruitment", "payroll",
    "facilities", "office manager", "receptionist", "administrative",
    "it support", "helpdesk", "help desk", "network admin" ]

/-- _normalize_title: lowercase, strip, then for each abbreviation that
occurs as a word of the current string, append every expansion not yet
occurring as a substring.  The string grows while the loop runs, exactly
as in the source. -/
def normalizeTitle (title : String) : String :=
  let t0 := pyTrim (pyLower title)
  TITLE_EXPANSIONS.foldl
    (fun t pair =>
      if (pyWords t).contains pair.1 then
        pair.2.foldl (fun t exp => if containsSub t exp then t else t ++ " " ++ exp) t
      else t)
    t0

/-- Python str.strip(".,;:()") on the character list of a word. -/
def stripPunctChars (l : List Char) : List Char :=
  let punct : List Char := [Char.ofNat 46, Char.ofNat 44, Char.ofNat 59,
    Char.ofNat 58, Char.ofNat 40, Char.ofNat 41]
  ((l.dropWhile punct.contains).reverse.dropWhile punct.contains).reverse

/-- w.strip(".,;:()"). -/
def stripPunct (w : String) : String :=
  String.mk (stripPunctChars w.toList)

/-- The stop words of _extract_title_keywords. -/
def STOP_WORDS : List String :=
  ["of", "the", "and", "a", "an", "in", "for", "at", "&"]

/-- _extract_title_keywords.  The Python set of keywords is modelled as a
duplicate-free list in insertion order; every later use of the set is
membership-based, so the representation is faithful. -/
def extractTitleKeywords (titlesStr : String) : List String :=
  if titlesStr = "" then []
  else
    (pySplit titlesStr ',').foldl
      (fun acc title =>
        let normalized := normalizeTitle title
        (pyWords normalized).foldl
          (fun acc w =>
            let w := stripPunct w
            if w ≠ "" ∧ ¬ STOP_WORDS.contains w ∧ w.length > 1 ∧ ¬ acc.contains w
            then acc ++ [w] else acc)
          acc)
      []

/-- One contact dict produced by hunter_domain_search
(agent.py lines 1126-1134). -/
structure HunterContact where
  name : String := ""
  email : String := ""
  position : String := ""
  confidence : Int := 0
  linkedin : String := ""
  deriving Repr, DecidableEq

/-- _filter_contacts_by_title.  The source additionally annotates an
overlap match with the matching keyword set (c["_match_keywords"]); the
annotation is dropped here, as nothing downstream reads it.  Returns
(matched, unmatched), both in input order. -/
def filterContactsByTitle (contacts : List HunterContact)
    (targetTitles : String) : List HunterContact × List HunterContact :=
  if pyTrim targetTitles = "" then (contacts, [])
  else
    let keywords := extractTitleKeywords targetTitles
    if keywords = [] then (contacts, [])
    else
      contacts.foldl
        (fun acc c =>
          let position := pyTrim (pyLower c.position)
          if position = "" then (acc.1, acc.2 ++ [c])
          else if EXCLUDE_DEPARTMENTS.any fun dept => containsSub position dept then
            (acc.1, acc.2 ++ [c])
          else
            let pn := normalizeTitle position
            let pw := pyWords pn
            if keywords.any fun kw => pw.contains kw then (acc.1 ++ [c], acc.2)
            else if keywords.any fun kw => kw.length > 3 && containsSub pn kw then
              (acc.1 ++ [c], acc.2)
            else (acc.1, acc.2 ++ [c]))
        ([], [])

/-! ### Prospect storage (db.py): add_prospect and the dedup index -/

/-- A contact record as passed to add_contacts.  Keys whose Python
.get default is non-empty (or whose absence triggers a fallback to
another key) are Options distinguishing a missing key from an empty
value; all other lookups use .get(key, ""), for which a missing key and
an empty string are indistinguishable. -/
structure Contact where
  contact_name : String := ""
  email : String := ""
  company : String := ""
  position : String := ""
  title : Option String := none
  linkedin : String := ""
  linkedin_url : Option String := none
  location : String := ""
  fit_score : Int := 0
  fit_reason : String := ""
  email_confidence : Option String := none
  source : Option String := none
  deriving Repr, DecidableEq

/-- A row of the prospects table (the columns add_prospect writes).
source_data holds the raw saved record (the source stores its JSON dump). -/
structure ProspectRow where
  search_id : Nat
  contact_name : String
  email : String
  company : String
  title : String
  linkedin_url : String
  location : String
  fit_score : Int
  fit_reason : String
  email_confidence : String
  source : String
  source_data : Contact := {}
  deriving Repr, DecidableEq

/-- The prospects table plus the AUTOINCREMENT counter of
prospect_searches (the searches table itself carries no information any
claim depends on, so only its id counter is modelled). -/
structure DB where
  prospects : List ProspectRow := []
  next_search_id : Nat := 1
  deriving Repr

/-- Does an existing row conflict with (email, company) under the partial
unique index idx_prospects_dedup ON prospects(email, company) WHERE
email IS NOT NULL AND email != ''?  SQLite TEXT comparison is binary
(case-sensitive): no COLLATE NOCASE is declared anywhere. -/
def dbConflict (rows : List ProspectRow) (email company : String) : Bool :=
  rows.any fun q => q.email == email && q.company == company

/-- db.add_prospect: INSERT OR IGNORE; returns the new row id, or none
when the insert was ignored as a duplicate. -/
def addProspect (db : DB) (r : ProspectRow) : DB × Option Nat :=
  if r.email != "" && dbConflict db.prospects r.email r.company then (db, none)
  else ({ db with prospects := db.prospects ++ [r] }, some (db.prospects.length + 1))

/-! ### EmailFinderAgent state and completion policy -/

/-- c.get("title", c.get("position", "")). -/
def contactTitle (c : Contact) : String :=
  match c.title with
  | some t => t
  | none => c.position

/-- c.get("linkedin_url", c.get("linkedin", "")). -/
def contactLinkedin (c : Contact) : String :=
  match c.linkedin_url with
  | some l => l
  | none => c.linkedin

/-- The row add_prospect is called with for one contact
(agent.py lines 1391-1404). -/
def rowOfContact (sid : Nat) (c : Contact) : ProspectRow :=
  { search_id := sid
    contact_name := c.contact_name
    email := c.email
    company := c.company
    title := contactTitle c
    linkedin_url := contactLinkedin c
    location := c.location
    fit_score := c.fit_score
    fit_reason := c.fit_reason
    email_confidence := c.email_confidence.getD "unknown"
    source := c.source.getD "agent"
    source_data := c }

/-- EmailFinderAgent mutable state (the fields the claims touch). -/
structure EFState where
  num_companies : Int
  accumulated : List Contact := []
  force_continue_count : Nat := 0
  max_force_continues : Nat := 3
  original_request : String := ""
  coverage_at_last_reset : Int := 0
  max_resets : Int := 3
  search_id : Option Nat := none
  deriving Repr

/-- Python strip().lower() applied to a company name. -/
def normCompany (s : String) : String := pyLower (pyTrim s)

/-- set(c.get("company", "").strip().lower() for c in accumulated if
c.get("company")) as a duplicate-free list; its length is the set size,
and only its length, its membership and its sorted join are used. -/
def coveredCompanies (acc : List Contact) : List String :=
  (acc.filterMap fun c => if c.company = "" then none else some (normCompany c.company)).dedup

/-- Ascending insertion (strings ordered by code points, as in Python). -/
def insertSorted (s : String) : List String → List String
  | [] => [s]
  | t :: ts => if s < t then s :: t :: ts else t :: insertSorted s ts

/-- sorted(...) on a list of strings. -/
def sortStrings (l : List String) : List String :=
  l.foldr insertSorted []

/-- ", ".join(sorted(covered)). -/
def coveredListStr (acc : List Contact) : String :=
  joinSep ", " (sortStrings (coveredCompanies acc))

/-- The corrective instruction returned by _should_continue
(agent.py lines 640-650). -/
def forceContinueMsg (remaining : Int) (numCovered : Nat) (numCompanies : Int)
    (coveredList : String) : String :=
  "⛔ 조기 종료 불가! 아직 " ++ toString remaining ++ "개 회사가 미처리입니다. " ++
  "(현재 " ++ toString numCovered ++ "/" ++ toString numCompanies ++ " 커버)\n\n" ++
  "이미 완료된 회사: " ++ coveredList ++ "\n\n" ++
  "원래 요청에서 위 목록에 없는 회사를 찾아 아래 단계를 진행하세요:\n" ++
  "1. search_web(\"[회사명] official website\")으로 올바른 도메인 확인\n" ++
  "2. hunter_domain_search(domain, company_name, target_titles)로 연락처 검색\n" ++
  "3. Hunter 0 → findymail_search(name, domain)으로 보충\n\n" ++
  "⚠️ \x27Unknown\x27이나 빈 이름은 시스템에서 자동 거부됩니다. " ++
  "실제 사람 이름을 찾을 수 없는 회사는 건너뛰세요."

/-- EmailFinderAgent._should_continue (agent.py lines 613-650).
remaining = num_companies - len(companies_covered) is inlined. -/
def shouldContinue (st : EFState) : EFState × Option String :=
  if st.num_companies ≤ 0 then (st, none)
  else if st.num_companies - ((coveredCompanies st.accumulated).length : Int) ≤ 0 then
    (st, none)
  else if st.max_force_continues ≤ st.force_continue_count then (st, none)
  else
    ({ st with force_continue_count := st.force_continue_count + 1 },
     some (forceContinueMsg
       (st.num_companies - (coveredCompanies st.accumulated).length)
       (coveredCompanies st.accumulated).length st.num_companies
       (coveredListStr st.accumulated)))

/-- _RESET_AFTER_MESSAGES. -/
def RESET_AFTER_MESSAGES : Nat := 60

/-- The single replacement user turn built by _maybe_reset_conversation
(agent.py lines 710-721). -/
def resetMsg (numCovered : Nat) (numCompanies : Int) (coveredList : String)
    (originalRequest : String) : String :=
  "=== 컨텍스트 리셋 — 이전 대화 기록은 무시하고 여기서부터 새로 시작 ===\n\n" ++
  "## 이미 처리 완료된 회사 (" ++ toString numCovered ++ "개) — 이 회사들은 건너뛰세요:\n" ++
  coveredList ++ "\n\n" ++
  "## 남은 작업\n" ++
  "원래 요청에는 " ++ toString numCompanies ++ "개 회사가 있었고, " ++
  "위 " ++ toString numCovered ++ "개는 이미 완료입니다.\n" ++
  "**아래 원래 요청에서 위 목록에 없는 회사만 찾아서 처리하세요.**\n" ++
  "워크플로우: search_web으로 도메인 확인 → hunter_domain_search → Findymail 보충\n\n" ++
  "## 원래 요청\n" ++
  originalRequest

/-- EmailFinderAgent._maybe_reset_conversation (agent.py lines 655-721).
The turn argument is accepted and ignored, as in the source. -/
def maybeResetConversation (st : EFState) (messages : List Message)
    (_turn : Nat) : EFState × Option (List Message) :=
  if messages.length < RESET_AFTER_MESSAGES then (st, none)
  else if st.num_companies - ((coveredCompanies st.accumulated).length : Int) ≤ 0 then
    (st, none)
  else if ((coveredCompanies st.accumulated).length : Int) - st.coverage_at_last_reset ≤ 0 then
    (st, none)
  else if st.max_resets - 1 < 0 then ({ st with max_resets := st.max_resets - 1 }, none)
  else
    ({ st with
        max_resets := st.max_resets - 1
        force_continue_count := 0
        coverage_at_last_reset := ((coveredCompanies st.accumulated).length : Int) },
     some [Message.user (resetMsg (coveredCompanies st.accumulated).length
       st.num_companies (coveredListStr st.accumulated) st.original_request)])

/-! ### EmailFinderAgent._add_contacts (agent.py lines 1357-1449) -/

/-- _JUNK_NAMES ("" included, as in the source set). -/
def JUNK_NAMES : List String :=
  ["unknown", "clinical team", "n/a", "none", "tbd", ""]

/-- The rejection test of _add_contacts applied to the raw contact_name:
empty or junk after strip/lower, or bracketed, or containing
"verification" or "processing" case-insensitively. -/
def isJunkName (raw : String) : Bool :=
  let name := pyTrim raw
  name == "" || JUNK_NAMES.contains (pyLower name) || pyStartsWith name "[" ||
    containsSub (pyLower name) "verification" || containsSub (pyLower name) "processing"

/-- The error returned when no contacts were provided. -/
def noContactsError : String :=
  "Error: No contacts provided. Pass \x7b\"contacts\": [\x7b\"contact_name\": \"...\", \"company\": \"...\", ...\x7d]\x7d"

/-- The saved/duplicate/rejected tallies of one add_contacts call. -/
structure SaveTally where
  saved : Nat := 0
  dupes : Nat := 0
  skipped : Nat := 0
  deriving Repr, DecidableEq

/-- The input of add_contacts: the "contacts" list, plus the contact
fields of the input mapping itself (the source falls back to treating
the whole input as a single contact when "contacts" is absent but a
top-level contact_name is present). -/
structure AddContactsInput where
  contacts : List Contact := []
  selfContact : Contact := {}
  deriving Repr

/-- contacts = input.get("contacts", []); if not contacts and
input.get("contact_name"): contacts = [input]. -/
def effectiveContacts (input : AddContactsInput) : List Contact :=
  if input.contacts ≠ [] then input.contacts
  else if input.selfContact.contact_name ≠ "" then [input.selfContact]
  else []

/-- Process one contact of the add_contacts loop: junk names are only
tallied; every other contact is passed to db.add_prospect and appended to
the accumulated list (even when the DB reports a duplicate).  A truthy
pid (if pid: saved += 1) is a returned row id, i.e. Option.isSome. -/
def processContact (sid : Nat) (acc : List Contact × DB × SaveTally)
    (c : Contact) : List Contact × DB × SaveTally :=
  if isJunkName c.contact_name then
    (acc.1, acc.2.1, { acc.2.2 with skipped := acc.2.2.skipped + 1 })
  else if (addProspect acc.2.1 (rowOfContact sid c)).2.isSome then
    (acc.1 ++ [c], (addProspect acc.2.1 (rowOfContact sid c)).1,
      { acc.2.2 with saved := acc.2.2.saved + 1 })
  else
    (acc.1 ++ [c], (addProspect acc.2.1 (rowOfContact sid c)).1,
      { acc.2.2 with dupes := acc.2.2.dupes + 1 })

/-- The summary string returned by add_contacts
(agent.py lines 1436-1449). -/
def addContactsSummary (t : SaveTally) (accumulated : List Contact)
    (numCompanies : Int) : String :=
  let withEmail := (accumulated.filter fun c => c.email != "").length
  let coverage :=
    if numCompanies ≠ 0 then
      toString (coveredCompanies accumulated).length ++ "/" ++ toString numCompanies
    else toString (coveredCompanies accumulated).length
  let extras :=
    (if t.dupes ≠ 0 then [toString t.dupes ++ " already in DB"] else []) ++
    (if t.skipped ≠ 0 then [toString t.skipped ++ " rejected"] else [])
  let extraMsg := if extras ≠ [] then " (" ++ joinSep ", " extras ++ ")" else ""
  "OK. +" ++ toString t.saved ++ " new contacts saved" ++ extraMsg ++
  " (total: " ++ toString accumulated.length ++ ", with email: " ++
  toString withEmail ++ "). Companies covered: " ++ coverage ++
  ". Keep going with remaining companies, then call add_contacts again."

/-- The search id used by an add_contacts call: the agent's existing one,
or the id create_prospect_search will allocate. -/
def sidOf (st : EFState) (db : DB) : Nat :=
  match st.search_id with
  | some s => s
  | none => db.next_search_id

/-- The database after the (possible) create_prospect_search call, which
only allocates a searches-table id and touches no prospect row. -/
def dbAfterSid (st : EFState) (db : DB) : DB :=
  match st.search_id with
  | some _ => db
  | none => { db with next_search_id := db.next_search_id + 1 }

/-- EmailFinderAgent._add_contacts.  Returns the new agent state, the new
database and the summary string.  The prospect_searches bookkeeping
(create_prospect_search on a missing search id, update_prospect_search at
the end) touches only the searches table, modelled by its id counter. -/
def addContacts (st : EFState) (db : DB) (input : AddContactsInput) :
    EFState × DB × String :=
  if effectiveContacts input = [] then (st, db, noContactsError)
  else
    let folded := (effectiveContacts input).foldl (processContact (sidOf st db))
      (st.accumulated, dbAfterSid st db, {})
    ({ st with search_id := some (sidOf st db), accumulated := folded.1 },
     folded.2.1,
     addContactsSummary folded.2.2 folded.1 st.num_companies)

/-! ### EmailFinderAgent._auto_save_hunter_contacts
(agent.py lines 1255-1355) -/

/-- Domain extraction: the part after the first "@" of the first matched
contact with an email containing "@" (email.split("@")[1]). -/
def extractDomain (matched : List HunterContact) : Option String :=
  matched.findSome? fun c =>
    if c.email ≠ "" ∧ containsSub c.email "@" then (pySplit c.email '@').get? 1
    else none

/-- Contacts with a non-empty stripped name and confidence >= 70. -/
def highConfContacts (matched : List HunterContact) : List HunterContact :=
  matched.filter fun c => pyTrim c.name ≠ "" ∧ c.confidence ≥ 70

/-- Contacts with a non-empty stripped name and confidence < 70. -/
def needsVerifyContacts (matched : List HunterContact) : List HunterContact :=
  matched.filter fun c => pyTrim c.name ≠ "" ∧ ¬ c.confidence ≥ 70

/-- The record saved for a high-confidence contact. -/
def highConfRecord (companyName : String) (c : HunterContact) : Contact :=
  { contact_name := c.name
    email := c.email
    company := companyName
    title := some c.position
    linkedin_url := some c.linkedin
    email_confidence := some "high"
    source := some "hunter" }

/-- The record saved for a low-confidence contact, depending on whether
the Findymail lookup (modelled as a deterministic function from the
contact name to the found email, "" when nothing was found or the lookup
raised) verified it.  The lookup happens only when there is at least one
low-confidence contact and a domain was extracted; the completion order
of the verification pool is irrelevant because the map is keyed by name
and the lookup is deterministic per (name, domain). -/
def lowConfRecord (companyName : String) (canVerify : Bool)
    (fm : String → String) (c : HunterContact) : Contact :=
  if canVerify && fm c.name != "" then
    { contact_name := c.name
      email := fm c.name
      company := companyName
      title := some c.position
      linkedin_url := some c.linkedin
      email_confidence := some "verified"
      source := some "hunter+findymail" }
  else
    { contact_name := c.name
      email := c.email
      company := companyName
      title := some c.position
      linkedin_url := some c.linkedin
      email_confidence := some "unverified"
      source := some "hunter" }

/-- The contacts_for_save list built by _auto_save_hunter_contacts:
high-confidence records first, then the low-confidence ones in order. -/
def buildContactsForSave (matched : List HunterContact) (companyName : String)
    (fm : String → String) : List Contact :=
  let domain := extractDomain matched
  let high := highConfContacts matched
  let needs := needsVerifyContacts matched
  let canVerify := decide (needs ≠ []) && domain.isSome
  high.map (highConfRecord companyName) ++
    needs.map (lowConfRecord companyName canVerify fm)

/-- EmailFinderAgent._auto_save_hunter_contacts: build the
confidence-tiered records and hand them to add_contacts.  (The source
additionally parses the saved count back out of the summary string for
its integer return value; no claim depends on that value, so the full
add_contacts result is returned instead.) -/
def autoSaveHunterContacts (st : EFState) (db : DB)
    (matched : List HunterContact) (companyName : String)
    (fm : String → String) : EFState × DB × String :=
  if matched = [] then (st, db, "")
  else
    let saveList := buildContactsForSave matched companyName fm
    if saveList = [] then (st, db, "")
    else addContacts st db { contacts := saveList }

/-! ## Theorems for the claims -/

/-- C8: with target-title specification "VP BD, Director Research",
_filter_contacts_by_title classifies "SVP Business Development" and
"Research Director" as matched and "Accounts Payable Clerk" and
"Head of HR" as unmatched, and the "Head of HR" position hits the
excluded-department list (so it is rejected before any keyword matching
is attempted). -/
theorem c8_title_filter :
    filterContactsByTitle
      [ { position := "SVP Business Development" },
        { position := "Research Director" },
        { position := "Accounts Payable Clerk" },
        { position := "Head of HR" } ]
      "VP BD, Director Research" =
    ( [ { position := "SVP Business Development" },
        { position := "Research Director" } ],
      [ { position := "Accounts Payable Clerk" },
        { position := "Head of HR" } ] ) ∧
    (EXCLUDE_DEPARTMENTS.any fun dept =>
      containsSub (pyTrim (pyLower "Head of HR")) dept) = true := by
  decide

/-- C2: for a state with num_companies > 0, _should_continue allows
termination (returns none) exactly when the number of distinct covered
companies (lower-cased, stripped) computed from the accumulated-contacts
list reaches num_companies or the forced-continuation counter has
reached its cap; in every other case it increments the counter and
returns the corrective instruction naming the remaining count and
listing the covered companies. -/
theorem c2_should_continue (st : EFState) (h : 0 < st.num_companies) :
    ((shouldContinue st).2 = none ↔
      st.num_companies ≤ ((coveredCompanies st.accumulated).length : Int) ∨
        st.max_force_continues ≤ st.force_continue_count) ∧
    (¬ (st.num_companies ≤ ((coveredCompanies st.accumulated).length : Int) ∨
          st.max_force_continues ≤ st.force_continue_count) →
      shouldContinue st =
        ({ st with force_continue_count := st.force_continue_count + 1 },
         some (forceContinueMsg
           (st.num_companies - (coveredCompanies st.accumulated).length)
           (coveredCompanies st.accumulated).length st.num_companies
           (coveredListStr st.accumulated)))) := by
  have h0 : ¬ st.num_companies ≤ 0 := not_le.mpr h
  constructor
  · unfold shouldContinue
    rw [if_neg h0]
    by_cases hB : st.num_companies - ((coveredCompanies st.accumulated).length : Int) ≤ 0
    · rw [if_pos hB]
      exact iff_of_true rfl (Or.inl (by omega))
    · rw [if_neg hB]
      by_cases hC : st.max_force_continues ≤ st.force_continue_count
      · rw [if_pos hC]
        exact iff_of_true rfl (Or.inr hC)
      · rw [if_neg hC]
        apply iff_of_false
        · simp
        · rintro (hx | hx)
          · exact hB (by omega)
          · exact hC hx
  · intro hn
    push_neg at hn
    unfold shouldContinue
    rw [if_neg h0, if_neg (by omega), if_neg (by omega)]

/-- C3: _maybe_reset_conversation returns none exactly when the message
list is below the size threshold, or remaining work is ≤ 0, or no new
company was covered since the previous reset, or the reset budget is
exhausted; otherwise it zeroes the forced-continuation counter, records
the current coverage as the new baseline, and returns a replacement
transcript of exactly one user turn listing every covered company and
restating the original request (and the workflow, which is part of
resetMsg). -/
theorem c3_maybe_reset (st : EFState) (msgs : List Message) (turn : Nat) :
    ((maybeResetConversation st msgs turn).2 = none ↔
      msgs.length < RESET_AFTER_MESSAGES ∨
      st.num_companies ≤ ((coveredCompanies st.accumulated).length : Int) ∨
      ((coveredCompanies st.accumulated).length : Int) ≤ st.coverage_at_last_reset ∨
      st.max_resets ≤ 0) ∧
    (¬ (msgs.length < RESET_AFTER_MESSAGES ∨
        st.num_companies ≤ ((coveredCompanies st.accumulated).length : Int) ∨
        ((coveredCompanies st.accumulated).length : Int) ≤ st.coverage_at_last_reset ∨
        st.max_resets ≤ 0) →
      maybeResetConversation st msgs turn =
        ({ st with
            max_resets := st.max_resets - 1
            force_continue_count := 0
            coverage_at_last_reset := ((coveredCompanies st.accumulated).length : Int) },
         some [Message.user (resetMsg (coveredCompanies st.accumulated).length
           st.num_companies (coveredListStr st.accumulated) st.original_request)])) := by
  constructor
  · unfold maybeResetConversation
    by_cases hA : msgs.length < RESET_AFTER_MESSAGES
    · rw [if_pos hA]
      exact iff_of_true rfl (Or.inl hA)
    · rw [if_neg hA]
      by_cases hB : st.num_companies - ((coveredCompanies st.accumulated).length : Int) ≤ 0
      · rw [if_pos hB]
        exact iff_of_true rfl (Or.inr (Or.inl (by omega)))
      · rw [if_neg hB]
        by_cases hC :
            ((coveredCompanies st.accumulated).length : Int) - st.coverage_at_last_reset ≤ 0
        · rw [if_pos hC]
          exact iff_of_true rfl (Or.inr (Or.inr (Or.inl (by omega))))
        · rw [if_neg hC]
          by_cases hD : st.max_resets - 1 < 0
          · rw [if_pos hD]
            exact iff_of_true rfl (Or.inr (Or.inr (Or.inr (by omega))))
          · rw [if_neg hD]
            apply iff_of_false
            · simp
            · rintro (hx | hx | hx | hx)
              · exact hA hx
              · exact hB (by omega)
              · exact hC (by omega)
              · exact hD (by omega)
  · intro hn
    push_neg at hn
    unfold maybeResetConversation
    rw [if_neg (by omega), if_neg (by omega), if_neg (by omega), if_neg (by omega)]

/-- Concrete state for the C2 witness: 3 companies requested, one
covered, the forced-continuation budget untouched. -/
def c2state : EFState :=
  { num_companies := 3
    accumulated := [{ contact_name := "Alice Kim", email := "alice@acme.com",
                      company := "Acme" }] }

/-- C2 witness: at c2state both hypotheses of c2_should_continue hold
concretely, and the hook forces continuation. -/
theorem c2_witness : (shouldContinue c2state).2.isSome = true := by
  have h := (c2_should_continue c2state (by decide)).2 (by decide)
  rw [h]
  rfl

/-- C3 witness: with a 60-message transcript, remaining work and fresh
progress, the reset fires. -/
theorem c3_witness :
    (maybeResetConversation c2state (List.replicate 60 (Message.user "x")) 7).2.isSome
      = true := by
  have h := (c3_maybe_reset c2state (List.replicate 60 (Message.user "x")) 7).2
    (by decide)
  rw [h]
  rfl

/-- Looking a block id up in the completion map returns that block's own
result, whatever the completion order, as long as the ids are distinct. -/
theorem lookupResult_resultsMap (exec : ToolExec) (completed : List ToolBlock)
    (b : ToolBlock) (hnd : (completed.map ToolBlock.id).Nodup)
    (hb : b ∈ completed) :
    lookupResult (resultsMapFrom exec completed) b.id = execOne exec b := by
  induction completed with
  | nil => cases hb
  | cons c rest ih =>
    simp only [List.map_cons, List.nodup_cons] at hnd
    unfold resultsMapFrom lookupResult at *
    by_cases hid : c.id = b.id
    · have hbc : b = c := by
        rcases List.mem_cons.mp hb with hbc | hbr
        · exact hbc
        · exact absurd (hid ▸ List.mem_map_of_mem ToolBlock.id hbr) hnd.1
      subst hbc
      rw [List.map_cons, List.find?_cons_of_pos _ (by simp)]
      rfl
    · have hbr : b ∈ rest := by
        rcases List.mem_cons.mp hb with hbc | hbr
        · exact absurd (hbc ▸ rfl) hid
        · exact hbr
      rw [List.map_cons, List.find?_cons_of_neg _ (by simpa using hid)]
      exact ih hnd.2 hbr

/-- The tool-result batch is independent of the completion order: it is
the invocation-ordered list of each block's own result. -/
theorem buildToolResults_eq (exec : ToolExec) (bs completed : List ToolBlock)
    (hnd : (bs.map ToolBlock.id).Nodup) (hperm : completed.Perm bs) :
    buildToolResults exec bs completed =
      bs.map fun b => { tool_use_id := b.id, content := execOne exec b } := by
  unfold buildToolResults
  by_cases hlen : bs.length > 1
  · rw [if_pos hlen]
    apply List.map_congr_left
    intro b hb
    have hbc : b ∈ completed := hperm.mem_iff.mpr hb
    have hndc : (completed.map ToolBlock.id).Nodup :=
      ((hperm.map ToolBlock.id).nodup_iff).mpr hnd
    rw [lookupResult_resultsMap exec completed b hndc hbc]
  · rw [if_neg hlen]

/-- C1: in a loop turn whose assistant content holds N ≥ 1 tool
invocations with distinct ids, exactly one tool-result batch is appended
immediately after the assistant turn; it holds exactly N results whose
i-th tool_use_id is the i-th invocation's id, for every completion order
of the worker pool; and an invocation whose execution raises yields an
"Error: " string in the batch instead of aborting it. -/
theorem c1_tool_batch {σ : Type} (hooks : AgentHooks σ) (exec : ToolExec)
    (st : σ) (msgs : List Message) (resp : Response) (completed : List ToolBlock)
    (hne : toolUseBlocks resp.content ≠ [])
    (hnd : ((toolUseBlocks resp.content).map ToolBlock.id).Nodup)
    (hperm : completed.Perm (toolUseBlocks resp.content)) :
    loopStep hooks exec completed st msgs resp =
      .next st (msgs ++ [.assistant resp.content,
        .toolResults (buildToolResults exec (toolUseBlocks resp.content) completed)]) ∧
    (buildToolResults exec (toolUseBlocks resp.content) completed).length
      = (toolUseBlocks resp.content).length ∧
    (∀ i : Nat,
      ((buildToolResults exec (toolUseBlocks resp.content) completed)[i]?).map
          ToolResult.tool_use_id
        = ((toolUseBlocks resp.content)[i]?).map ToolBlock.id) ∧
    (∀ (i : Nat) (b : ToolBlock) (e : String),
      (toolUseBlocks resp.content)[i]? = some b →
      exec b.name b.input = .error e →
      ((buildToolResults exec (toolUseBlocks resp.content) completed)[i]?).map
          ToolResult.content
        = some ("Error: " ++ e)) := by
  have hbe := buildToolResults_eq exec (toolUseBlocks resp.content) completed hnd hperm
  refine ⟨?_, ?_, ?_, ?_⟩
  · unfold loopStep
    rw [if_neg (by simp [hne]), if_neg (by simp [hne])]
    dsimp only
    rw [if_neg (by simp [hbe, List.isEmpty_iff, hne])]
    simp
  · rw [hbe, List.length_map]
  · intro i
    rw [hbe, List.getElem?_map, Option.map_map]
    rfl
  · intro i b e hib hexec
    rw [hbe, List.getElem?_map, hib]
    simp only [Option.map_some']
    unfold execOne
    rw [hexec]

/-- Concrete tool blocks for the C1 witness. -/
def c1b1 : ToolBlock := { id := "id1", name := "t1", input := "a" }

/-- Second concrete tool block for the C1 witness. -/
def c1b2 : ToolBlock := { id := "id2", name := "t2", input := "b" }

/-- Concrete executor for the C1 witness: t1 succeeds, everything else
raises. -/
def c1exec : ToolExec := fun n _ => if n = "t1" then .ok "r1" else .error "boom"

/-- Trivial hooks (BaseAgent defaults: both hooks return None). -/
def trivialHooks : AgentHooks Unit :=
  { shouldContinue := fun s => (s, none)
    maybeReset := fun s _ _ => (s, none) }

/-- Concrete response for the C1 witness: two tool invocations. -/
def c1resp : Response :=
  { content := [.toolUse c1b1, .toolUse c1b2], stopReason := .toolUse }

/-- C1 witness: with the completion order reversed relative to invocation
order, the batch is appended after the assistant turn in invocation
order, and the failing invocation yields an "Error: boom" result. -/
theorem c1_witness :
    loopStep trivialHooks c1exec [c1b2, c1b1] () [] c1resp =
      .next () [.assistant c1resp.content,
        .toolResults [ { tool_use_id := "id1", content := "r1" },
                       { tool_use_id := "id2", content := "Error: boom" } ]] := by
  have h := c1_tool_batch trivialHooks c1exec () [] c1resp [c1b2, c1b1]
    (by decide) (by decide) (by decide)
  rw [h.1]
  have : buildToolResults c1exec (toolUseBlocks c1resp.content) [c1b2, c1b1] =
      [ { tool_use_id := "id1", content := "r1" },
        { tool_use_id := "id2", content := "Error: boom" } ] := by decide
  rw [this]
  simp

/-- The sleeps performed for k consecutive failed attempts starting at
attempt a, in order. -/
def retrySpecWaits (o : Nat → ApiOutcome) : Nat → Nat → List Nat
  | _, 0 => []
  | a, k + 1 => waitFor (o a) a :: retrySpecWaits o (a + 1) k

/-- retrySpecWaits as a range map. -/
theorem retrySpecWaits_eq_range (o : Nat → ApiOutcome) :
    ∀ (k a : Nat), retrySpecWaits o a k =
      (List.range k).map fun i => waitFor (o (a + i)) (a + i) := by
  intro k
  induction k with
  | zero => intro a; rfl
  | succ k ih =>
    intro a
    rw [List.range_succ_eq_map, List.map_cons, List.map_map]
    show waitFor (o a) a :: retrySpecWaits o (a + 1) k = _
    rw [ih (a + 1)]
    congr 1
    apply List.map_congr_left
    intro i _
    have e : a + (i + 1) = a + 1 + i := by omega
    simp only [Function.comp_apply, e]

/-- Unfolding one retried attempt. -/
theorem retryAux_step_retryable (o : Nat → ApiOutcome) (a left : Nat)
    (h : retryable (o a)) :
    retryAux o a (left + 1) =
      ((retryAux o (a + 1) left).1,
        waitFor (o a) a :: (retryAux o (a + 1) left).2) := by
  cases ho : o a with
  | ok r => rw [ho] at h; simp [retryable] at h
  | rateLimited => simp [retryAux, ho, waitFor]
  | statusErr c =>
    rw [ho] at h
    have hc : c = 529 := h
    simp [retryAux, ho, waitFor, hc]
  | otherErr => rw [ho] at h; simp [retryable] at h

/-- Skipping k consecutive retryable failures accumulates k sleeps and
continues from attempt a + k. -/
theorem retryAux_skip (o : Nat → ApiOutcome) :
    ∀ (k a left : Nat), k ≤ left → (∀ i, i < k → retryable (o (a + i))) →
      retryAux o a left =
        ((retryAux o (a + k) (left - k)).1,
          retrySpecWaits o a k ++ (retryAux o (a + k) (left - k)).2) := by
  intro k
  induction k with
  | zero => intro a left _ _; simp [retrySpecWaits]
  | succ k ih =>
    intro a left hk hr
    obtain ⟨l, rfl⟩ : ∃ l, left = l + 1 := ⟨left - 1, by omega⟩
    have h0 : retryable (o a) := by simpa using hr 0 (by omega)
    rw [retryAux_step_retryable o a l h0]
    have hr' : ∀ i, i < k → retryable (o (a + 1 + i)) := by
      intro i hi
      have e : a + 1 + i = a + (i + 1) := by omega
      rw [e]
      exact hr (i + 1) (by omega)
    rw [ih (a + 1) l (by omega) hr']
    have e1 : a + 1 + k = a + (k + 1) := by omega
    have e2 : l - k = l + 1 - (k + 1) := by omega
    rw [e1, e2]
    simp [retrySpecWaits]

/-- C4: the retry policy of _api_call_with_retry.  With the per-attempt
outcome oracle o: a success after k retryable failures returns the
first successful response unchanged, sleeping 65·(i+1) seconds after a
rate-limit failure at 0-based attempt i and 30·(i+1) after an overload
(529) failure, so pure rate-limit waits are strictly increasing; any
other error propagates immediately with no further attempt; five
retryable failures raise the terminal error; and failed attempts leave
the transcript unchanged — the loop's behaviour depends only on the
post-retry result of each turn, never on how many failed attempts
preceded it. -/
theorem c4_retry_policy (o : Nat → ApiOutcome) :
    (∀ (k : Nat) (r : Response), k < RATE_LIMIT_MAX_RETRIES →
      (∀ i, i < k → retryable (o i)) → o k = .ok r →
      apiCallWithRetry o =
        (.ok r, (List.range k).map fun i => waitFor (o i) i)) ∧
    (∀ k : Nat, (∀ i, i < k → o i = .rateLimited) →
      List.Chain' (· < ·) ((List.range k).map fun i => waitFor (o i) i)) ∧
    (∀ (k c : Nat), k < RATE_LIMIT_MAX_RETRIES →
      (∀ i, i < k → retryable (o i)) → o k = .statusErr c → c ≠ 529 →
      apiCallWithRetry o =
        (.error (.status c), (List.range k).map fun i => waitFor (o i) i)) ∧
    (∀ k : Nat, k < RATE_LIMIT_MAX_RETRIES →
      (∀ i, i < k → retryable (o i)) → o k = .otherErr →
      apiCallWithRetry o =
        (.error .otherErr, (List.range k).map fun i => waitFor (o i) i)) ∧
    ((∀ i, i < RATE_LIMIT_MAX_RETRIES → retryable (o i)) →
      (apiCallWithRetry o).1 = .error .retriesExhausted) ∧
    (∀ {σ : Type} (hooks : AgentHooks σ) (exec : ToolExec)
        (order : Nat → List ToolBlock) (o₁ o₂ : Nat → Nat → ApiOutcome)
        (fuel turn : Nat) (st : σ) (msgs : List Message),
      (∀ t, (apiCallWithRetry (o₁ t)).1 = (apiCallWithRetry (o₂ t)).1) →
      runLoop hooks exec (fun t => (apiCallWithRetry (o₁ t)).1) order fuel turn st msgs
        = runLoop hooks exec (fun t => (apiCallWithRetry (o₂ t)).1) order fuel turn st
            msgs) := by
  refine ⟨?_, ?_, ?_, ?_, ?_, ?_⟩
  · intro k r hk hr hok
    unfold apiCallWithRetry
    rw [retryAux_skip o k 0 RATE_LIMIT_MAX_RETRIES (by omega)
      (fun i hi => by simpa using hr i hi)]
    obtain ⟨l, hl⟩ : ∃ l, RATE_LIMIT_MAX_RETRIES - k = l + 1 :=
      ⟨RATE_LIMIT_MAX_RETRIES - k - 1, by omega⟩
    rw [hl]
    simp only [Nat.zero_add]
    rw [show retryAux o k (l + 1) = (.ok r, []) from by simp [retryAux, hok]]
    rw [retrySpecWaits_eq_range]
    simp
  · intro k hr
    apply List.Pairwise.chain'
    rw [List.pairwise_map]
    refine (List.pairwise_lt_range k).imp_of_mem ?_
    intro a b ha hb hab
    rw [List.mem_range] at ha hb
    rw [hr a ha, hr b hb]
    show RATE_LIMIT_BASE_WAIT * (a + 1) < RATE_LIMIT_BASE_WAIT * (b + 1)
    unfold RATE_LIMIT_BASE_WAIT
    omega
  · intro k c hk hr hsc hc
    unfold apiCallWithRetry
    rw [retryAux_skip o k 0 RATE_LIMIT_MAX_RETRIES (by omega)
      (fun i hi => by simpa using hr i hi)]
    obtain ⟨l, hl⟩ : ∃ l, RATE_LIMIT_MAX_RETRIES - k = l + 1 :=
      ⟨RATE_LIMIT_MAX_RETRIES - k - 1, by omega⟩
    rw [hl]
    simp only [Nat.zero_add]
    rw [show retryAux o k (l + 1) = (.error (.status c), []) from by
      simp [retryAux, hsc, hc]]
    rw [retrySpecWaits_eq_range]
    simp
  · intro k hk hr ho
    unfold apiCallWithRetry
    rw [retryAux_skip o k 0 RATE_LIMIT_MAX_RETRIES (by omega)
      (fun i hi => by simpa using hr i hi)]
    obtain ⟨l, hl⟩ : ∃ l, RATE_LIMIT_MAX_RETRIES - k = l + 1 :=
      ⟨RATE_LIMIT_MAX_RETRIES - k - 1, by omega⟩
    rw [hl]
    simp only [Nat.zero_add]
    rw [show retryAux o k (l + 1) = (.error .otherErr, []) from by
      simp [retryAux, ho]]
    rw [retrySpecWaits_eq_range]
    simp
  · intro hr
    unfold apiCallWithRetry
    rw [retryAux_skip o RATE_LIMIT_MAX_RETRIES 0 RATE_LIMIT_MAX_RETRIES (by omega)
      (fun i hi => by simpa using hr i hi)]
    simp [retryAux]
  · intro σ hooks exec order o₁ o₂ fuel turn st msgs hsame
    have : (fun t => (apiCallWithRetry (o₁ t)).1)
        = fun t => (apiCallWithRetry (o₂ t)).1 := funext hsame
    rw [this]

/-- Outcome oracle for the C4 witness: two rate limits, then success. -/
def c4o : Nat → ApiOutcome :=
  fun i => if i < 2 then .rateLimited
    else .ok { content := [], stopReason := .endTurn }

/-- C4 witness: with two rate-limit failures then a success, exactly two
waits occur — 65 s then 130 s, strictly increasing — and the first
successful response is returned unchanged. -/
theorem c4_witness :
    apiCallWithRetry c4o =
      (.ok { content := [], stopReason := .endTurn }, [65, 130]) := by
  have h := (c4_retry_policy c4o).1 2 { content := [], stopReason := .endTurn }
    (by decide)
    (by
      intro i hi
      interval_cases i <;> exact trivial)
    rfl
  rw [h]
  rfl

/-- C5: when the bounded loop exhausts every one of its MAX_TURNS
iterations, run appends exactly one corrective save-now user instruction,
performs exactly one additional model call, executes the tool invocations
of that final response without looping further, and returns the fixed
sentinel string — returning normally for every behaviour of the model
and tools in that final step, including a failing model call. -/
theorem c5_max_turns {σ : Type} (hooks : AgentHooks σ) (exec : ToolExec)
    (api : Nat → Except RunError Response) (order : Nat → List ToolBlock)
    (maxTurns : Nat) (st0 : σ) (u : String) (st : σ) (m : List Message)
    (h : runLoop hooks exec api order maxTurns 0 st0 [.user u] = .exhausted st m) :
    runAgent hooks exec api order maxTurns st0 u =
      .ok (maxTurnsSentinel, m ++ [.user maxTurnsSaveMsg],
        match api maxTurns with
        | .ok r => finalToolExecs exec r.content
        | .error _ => []) := by
  unfold runAgent
  rw [h]
  cases hapi : api maxTurns <;> simp

/-- C5 witness: a zero-turn budget exhausts immediately; the save-now
instruction is appended, the final model call returns one tool
invocation, which is executed, and the sentinel comes back. -/
theorem c5_witness :
    runAgent trivialHooks c1exec (fun _ => .ok c1resp) (fun _ => []) 0 () "go" =
      .ok (maxTurnsSentinel, [.user "go", .user maxTurnsSaveMsg],
        [("t1", "r1"), ("t2", "Error: boom")]) := by
  have h := c5_max_turns trivialHooks c1exec (fun _ => .ok c1resp) (fun _ => [])
    0 () "go" () [.user "go"] rfl
  rw [h]
  rfl

/-! ### Lemmas about the add_contacts fold -/

/-- The dedup key of a submitted contact (the columns of
idx_prospects_dedup). -/
def contactKey (c : Contact) : String × String := (c.email, c.company)

/-- A key that does not conflict with any stored row. -/
def keyFresh (rows : List ProspectRow) (k : String × String) : Bool :=
  ! dbConflict rows k.1 k.2

/-- The number of distinct keys of ks that are fresh for rows. -/
def freshKeyCount (rows : List ProspectRow) (ks : List (String × String)) : Nat :=
  ((ks.filter (keyFresh rows)).toFinset).card

/-- addProspect when the dedup index reports a conflict. -/
theorem addProspect_of_conflict (db : DB) (r : ProspectRow)
    (h : (r.email != "" && dbConflict db.prospects r.email r.company) = true) :
    addProspect db r = (db, none) := by
  unfold addProspect
  rw [if_pos h]

/-- addProspect when the row does not conflict. -/
theorem addProspect_of_fresh (db : DB) (r : ProspectRow)
    (h : ¬ ((r.email != "" && dbConflict db.prospects r.email r.company) = true)) :
    addProspect db r =
      ({ db with prospects := db.prospects ++ [r] },
       some (db.prospects.length + 1)) := by
  unfold addProspect
  rw [if_neg h]

theorem freshKeyCount_le_cons (rows : List ProspectRow) (k : String × String)
    (ks : List (String × String)) :
    freshKeyCount rows ks ≤ freshKeyCount rows (k :: ks) := by
  unfold freshKeyCount
  by_cases hk : keyFresh rows k = true
  · rw [List.filter_cons_of_pos hk, List.toFinset_cons]
    exact Finset.card_le_card (Finset.subset_insert _ _)
  · rw [List.filter_cons_of_neg (by simpa using hk)]

theorem freshKeyCount_le_toFinset (rows : List ProspectRow)
    (ks : List (String × String)) :
    freshKeyCount rows ks ≤ ks.toFinset.card := by
  apply Finset.card_le_card
  intro k hk
  rw [List.mem_toFinset] at hk ⊢
  exact (List.mem_filter.mp hk).1

/-- Inserting a fresh-keyed row consumes at most one fresh key: afterwards
every remaining fresh key is a fresh key of the old table other than the
inserted one. -/
theorem freshKeyCount_insert (rows : List ProspectRow) (r : ProspectRow)
    (ks : List (String × String))
    (hfresh : keyFresh rows (r.email, r.company) = true) :
    1 + freshKeyCount (rows ++ [r]) ks
      ≤ freshKeyCount rows ((r.email, r.company) :: ks) := by
  unfold freshKeyCount
  have hfun : keyFresh (rows ++ [r]) = fun k =>
      keyFresh rows k && !(r.email == k.1 && r.company == k.2) := by
    funext k
    unfold keyFresh dbConflict
    rw [List.any_append]
    simp [Bool.not_or]
  rw [List.filter_cons_of_pos hfresh, List.toFinset_cons, hfun]
  have hsub : (ks.filter fun k =>
        keyFresh rows k && !(r.email == k.1 && r.company == k.2)).toFinset
      ⊆ (ks.filter (keyFresh rows)).toFinset.erase (r.email, r.company) := by
    intro k hk
    rw [List.mem_toFinset, List.mem_filter, Bool.and_eq_true] at hk
    rw [Finset.mem_erase, List.mem_toFinset, List.mem_filter]
    refine ⟨?_, hk.1, hk.2.1⟩
    intro hkeq
    have hb := hk.2.2
    rw [hkeq] at hb
    simp at hb
  have h1 : ((ks.filter fun k =>
        keyFresh rows k && !(r.email == k.1 && r.company == k.2)).toFinset).card
      ≤ ((ks.filter (keyFresh rows)).toFinset.erase (r.email, r.company)).card :=
    Finset.card_le_card hsub
  by_cases hmem : (r.email, r.company) ∈ (ks.filter (keyFresh rows)).toFinset
  · rw [Finset.insert_eq_self.mpr hmem]
    rw [Finset.card_erase_of_mem hmem] at h1
    have hpos : 0 < (ks.filter (keyFresh rows)).toFinset.card :=
      Finset.card_pos.mpr ⟨_, hmem⟩
    omega
  · rw [Finset.card_insert_of_not_mem hmem]
    rw [Finset.erase_eq_self.mpr hmem] at h1
    omega

/-- Step lemma: a junk-named contact is only tallied. -/
theorem processContact_junk (sid : Nat) (acc : List Contact) (db : DB)
    (t : SaveTally) (c : Contact) (hj : isJunkName c.contact_name = true) :
    processContact sid (acc, db, t) c
      = (acc, db, { t with skipped := t.skipped + 1 }) := by
  unfold processContact
  rw [if_pos hj]

/-- Step lemma: an accepted contact whose insert succeeded. -/
theorem processContact_insert (sid : Nat) (acc : List Contact) (db : DB)
    (t : SaveTally) (c : Contact) (hj : isJunkName c.contact_name = false)
    (hap : (addProspect db (rowOfContact sid c)).2.isSome = true) :
    processContact sid (acc, db, t) c
      = (acc ++ [c], (addProspect db (rowOfContact sid c)).1,
         { t with saved := t.saved + 1 }) := by
  unfold processContact
  dsimp only
  rw [if_neg (by simp [hj]), if_pos hap]

/-- Step lemma: an accepted contact the index reported as a duplicate. -/
theorem processContact_dup (sid : Nat) (acc : List Contact) (db : DB)
    (t : SaveTally) (c : Contact) (hj : isJunkName c.contact_name = false)
    (hap : (addProspect db (rowOfContact sid c)).2.isSome = false) :
    processContact sid (acc, db, t) c
      = (acc ++ [c], (addProspect db (rowOfContact sid c)).1,
         { t with dupes := t.dupes + 1 }) := by
  unfold processContact
  dsimp only
  rw [if_neg (by simp [hj]), if_neg (by simp [hap])]

/-- Behaviour of the add_contacts processing fold: junk-named contacts
are only counted as skipped; every other contact is appended to the
accumulated list and tallied as saved or duplicate; the table only grows,
and every new row is the row of a non-junk submitted contact. -/
theorem processContacts_spec (sid : Nat) :
    ∀ (cs : List Contact) (acc : List Contact) (db : DB) (t : SaveTally),
      ((cs.foldl (processContact sid) (acc, db, t)).1
          = acc ++ cs.filter fun c => !(isJunkName c.contact_name)) ∧
      ((cs.foldl (processContact sid) (acc, db, t)).2.2.skipped
          = t.skipped + (cs.filter fun c => isJunkName c.contact_name).length) ∧
      ((cs.foldl (processContact sid) (acc, db, t)).2.2.saved
            + (cs.foldl (processContact sid) (acc, db, t)).2.2.dupes
          = t.saved + t.dupes
            + (cs.filter fun c => !(isJunkName c.contact_name)).length) ∧
      ((cs.foldl (processContact sid) (acc, db, t)).2.1.next_search_id
          = db.next_search_id) ∧
      (∃ newRows,
        (cs.foldl (processContact sid) (acc, db, t)).2.1.prospects
            = db.prospects ++ newRows ∧
        ∀ r ∈ newRows, ∃ c ∈ cs, isJunkName c.contact_name = false
          ∧ r = rowOfContact sid c) := by
  intro cs
  induction cs with
  | nil =>
    intro acc db t
    exact ⟨by simp, by simp, by simp, rfl, [], by simp, by simp⟩
  | cons c cs ih =>
    intro acc db t
    rw [List.foldl_cons]
    by_cases hj : isJunkName c.contact_name = true
    · rw [processContact_junk sid acc db t c hj]
      obtain ⟨h1, h2, h3, h4, rows, hr1, hr2⟩ := ih acc db _
      refine ⟨?_, ?_, ?_, h4, rows, hr1, ?_⟩
      · rw [h1, List.filter_cons_of_neg (by simp [hj])]
      · rw [h2, List.filter_cons_of_pos (by simp [hj])]
        simp only [List.length_cons]
        omega
      · rw [h3, List.filter_cons_of_neg (by simp [hj])]
      · intro r hr
        obtain ⟨c2, hc2, hcj, hceq⟩ := hr2 r hr
        exact ⟨c2, List.mem_cons_of_mem _ hc2, hcj, hceq⟩
    · have hjf : isJunkName c.contact_name = false := by
        revert hj
        cases isJunkName c.contact_name <;> simp
      by_cases hs : (addProspect db (rowOfContact sid c)).2.isSome = true
      · rw [processContact_insert sid acc db t c hjf hs]
        have hins : (addProspect db (rowOfContact sid c)).1
            = { db with prospects := db.prospects ++ [rowOfContact sid c] } := by
          by_cases hc2 : ((rowOfContact sid c).email != ""
              && dbConflict db.prospects (rowOfContact sid c).email
                  (rowOfContact sid c).company) = true
          · rw [addProspect_of_conflict db _ hc2] at hs
            simp at hs
          · rw [addProspect_of_fresh db _ hc2]
        rw [hins]
        obtain ⟨h1, h2, h3, h4, rows, hr1, hr2⟩ := ih (acc ++ [c]) _ _
        refine ⟨?_, ?_, ?_, by rw [h4], rowOfContact sid c :: rows, ?_, ?_⟩
        · rw [h1, List.filter_cons_of_pos (by simp [hjf])]
          simp
        · rw [h2, List.filter_cons_of_neg (by simp [hjf])]
        · rw [h3, List.filter_cons_of_pos (by simp [hjf])]
          simp only [List.length_cons]
          omega
        · rw [hr1]
          simp
        · intro r hr
          rcases List.mem_cons.mp hr with hreq | hrr
          · exact ⟨c, List.mem_cons_self c cs, hjf, hreq⟩
          · obtain ⟨c2, hc2, hcj, hceq⟩ := hr2 r hrr
            exact ⟨c2, List.mem_cons_of_mem _ hc2, hcj, hceq⟩
      · have hsf : (addProspect db (rowOfContact sid c)).2.isSome = false := by
          revert hs
          cases (addProspect db (rowOfContact sid c)).2.isSome <;> simp
        rw [processContact_dup sid acc db t c hjf hsf]
        have hdup : (addProspect db (rowOfContact sid c)).1 = db := by
          by_cases hc2 : ((rowOfContact sid c).email != ""
              && dbConflict db.prospects (rowOfContact sid c).email
                  (rowOfContact sid c).company) = true
          · rw [addProspect_of_conflict db _ hc2]
          · rw [addProspect_of_fresh db _ hc2] at hsf
            simp at hsf
        rw [hdup]
        obtain ⟨h1, h2, h3, h4, rows, hr1, hr2⟩ := ih (acc ++ [c]) db _
        refine ⟨?_, ?_, ?_, h4, rows, hr1, ?_⟩
        · rw [h1, List.filter_cons_of_pos (by simp [hjf])]
          simp
        · rw [h2, List.filter_cons_of_neg (by simp [hjf])]
        · rw [h3, List.filter_cons_of_pos (by simp [hjf])]
          simp only [List.length_cons]
          omega
        · intro r hr
          obtain ⟨c2, hc2, hcj, hceq⟩ := hr2 r hr
          exact ⟨c2, List.mem_cons_of_mem _ hc2, hcj, hceq⟩

/-- The accumulated list and the database reached by the fold do not
depend on the starting tally. -/
theorem processContacts_tally_indep (sid : Nat) :
    ∀ (cs : List Contact) (acc : List Contact) (db : DB) (t t2 : SaveTally),
      ((cs.foldl (processContact sid) (acc, db, t)).1
          = (cs.foldl (processContact sid) (acc, db, t2)).1) ∧
      ((cs.foldl (processContact sid) (acc, db, t)).2.1
          = (cs.foldl (processContact sid) (acc, db, t2)).2.1) := by
  intro cs
  induction cs with
  | nil => intro acc db t t2; exact ⟨rfl, rfl⟩
  | cons c cs ih =>
    intro acc db t t2
    rw [List.foldl_cons, List.foldl_cons]
    by_cases hj : isJunkName c.contact_name = true
    · rw [processContact_junk sid acc db t c hj,
        processContact_junk sid acc db t2 c hj]
      exact ih acc db _ _
    · have hjf : isJunkName c.contact_name = false := by
        revert hj
        cases isJunkName c.contact_name <;> simp
      by_cases hs : (addProspect db (rowOfContact sid c)).2.isSome = true
      · rw [processContact_insert sid acc db t c hjf hs,
          processContact_insert sid acc db t2 c hjf hs]
        exact ih (acc ++ [c]) _ _ _
      · have hsf : (addProspect db (rowOfContact sid c)).2.isSome = false := by
          revert hs
          cases (addProspect db (rowOfContact sid c)).2.isSome <;> simp
        rw [processContact_dup sid acc db t c hjf hsf,
          processContact_dup sid acc db t2 c hjf hsf]
        exact ih (acc ++ [c]) _ _ _

/-- Growth bound for the add_contacts fold: when every submitted contact
carries a non-empty email, the prospects table grows by at most the
number of distinct fresh (email, company) keys among the submissions. -/
theorem processContacts_db_bound (sid : Nat) :
    ∀ (cs : List Contact), (∀ c ∈ cs, c.email ≠ "") →
      ∀ (acc : List Contact) (db : DB) (t : SaveTally),
      ((cs.foldl (processContact sid) (acc, db, t)).2.1).prospects.length
        ≤ db.prospects.length + freshKeyCount db.prospects (cs.map contactKey) := by
  intro cs
  induction cs with
  | nil =>
    intro _ acc db t
    simp [freshKeyCount]
  | cons c cs ih =>
    intro hmail acc db t
    have hmc : c.email ≠ "" := hmail c (List.mem_cons_self c cs)
    have hmcs : ∀ x ∈ cs, x.email ≠ "" := fun x hx =>
      hmail x (List.mem_cons_of_mem c hx)
    rw [List.foldl_cons, List.map_cons]
    by_cases hj : isJunkName c.contact_name = true
    · rw [processContact_junk sid acc db t c hj]
      exact le_trans (ih hmcs acc db _)
        (Nat.add_le_add_left (freshKeyCount_le_cons _ _ _) _)
    · have hjf : isJunkName c.contact_name = false := by
        revert hj
        cases isJunkName c.contact_name <;> simp
      by_cases hd : dbConflict db.prospects c.email c.company = true
      · have hcond : ((rowOfContact sid c).email != ""
            && dbConflict db.prospects (rowOfContact sid c).email
                (rowOfContact sid c).company) = true := by
          show (c.email != "" && dbConflict db.prospects c.email c.company) = true
          simp [hmc, hd]
        have hap := addProspect_of_conflict db (rowOfContact sid c) hcond
        have hsf : (addProspect db (rowOfContact sid c)).2.isSome = false := by
          rw [hap]
          rfl
        rw [processContact_dup sid acc db t c hjf hsf, hap]
        exact le_trans (ih hmcs (acc ++ [c]) db _)
          (Nat.add_le_add_left (freshKeyCount_le_cons _ _ _) _)
      · have hdf : dbConflict db.prospects c.email c.company = false := by
          revert hd
          cases dbConflict db.prospects c.email c.company <;> simp
        have hcond : ¬ (((rowOfContact sid c).email != ""
            && dbConflict db.prospects (rowOfContact sid c).email
                (rowOfContact sid c).company) = true) := by
          show ¬ ((c.email != "" && dbConflict db.prospects c.email c.company) = true)
          simp [hdf]
        have hap := addProspect_of_fresh db (rowOfContact sid c) hcond
        have hss : (addProspect db (rowOfContact sid c)).2.isSome = true := by
          rw [hap]
          rfl
        rw [processContact_insert sid acc db t c hjf hss, hap]
        refine le_trans (ih hmcs (acc ++ [c]) _ _) ?_
        have hfresh : keyFresh db.prospects
            ((rowOfContact sid c).email, (rowOfContact sid c).company) = true := by
          show (! dbConflict db.prospects c.email c.company) = true
          simp [hdf]
        have h2 := freshKeyCount_insert db.prospects (rowOfContact sid c)
          (cs.map contactKey) hfresh
        have hkey : ((rowOfContact sid c).email, (rowOfContact sid c).company)
            = contactKey c := rfl
        rw [hkey] at h2
        simp only [List.length_append, List.length_cons, List.length_nil]
        omega

/-- Unfolding add_contacts on a non-empty submission. -/
theorem addContacts_of_ne (st : EFState) (db : DB) (input : AddContactsInput)
    (hne : effectiveContacts input ≠ []) :
    addContacts st db input =
      (let folded := (effectiveContacts input).foldl
          (processContact (sidOf st db)) (st.accumulated, dbAfterSid st db, {})
       ({ st with search_id := some (sidOf st db), accumulated := folded.1 },
        folded.2.1,
        addContactsSummary folded.2.2 folded.1 st.num_companies)) := by
  unfold addContacts
  rw [if_neg hne]

/-- create_prospect_search touches no prospect row. -/
theorem dbAfterSid_prospects (st : EFState) (db : DB) :
    (dbAfterSid st db).prospects = db.prospects := by
  unfold dbAfterSid
  cases st.search_id <;> rfl

/-- Once the agent carries a search id, sidOf returns it. -/
theorem sidOf_update (st : EFState) (db2 : DB) (s : Nat) (a : List Contact) :
    sidOf { st with search_id := some s, accumulated := a } db2 = s := rfl

/-- Once the agent carries a search id, dbAfterSid changes nothing. -/
theorem dbAfterSid_update (st : EFState) (db2 : DB) (s : Nat) (a : List Contact) :
    dbAfterSid { st with search_id := some s, accumulated := a } db2 = db2 := rfl

/-- C7 amended: add_prospect reports a duplicate (returns none and leaves
the table unchanged) exactly when the new row has a non-empty email and
some stored row agrees with it exactly (case-sensitively) on email and
company; rows without an email are always inserted — there is no
(name, company) fallback. -/
theorem c7_amended (db : DB) (r : ProspectRow) :
    ((addProspect db r).2 = none ↔
      r.email ≠ "" ∧ ∃ q ∈ db.prospects, q.email = r.email ∧ q.company = r.company) ∧
    ((addProspect db r).2 = none → (addProspect db r).1 = db) := by
  have hcond : (r.email != "" && dbConflict db.prospects r.email r.company) = true ↔
      (r.email ≠ "" ∧ ∃ q ∈ db.prospects, q.email = r.email ∧ q.company = r.company) := by
    unfold dbConflict
    simp [List.any_eq_true]
  by_cases hc : (r.email != "" && dbConflict db.prospects r.email r.company) = true
  · rw [addProspect_of_conflict db r hc]
    exact ⟨iff_of_true rfl (hcond.mp hc), fun _ => rfl⟩
  · rw [addProspect_of_fresh db r hc]
    refine ⟨iff_of_false (by simp) fun hr => hc (hcond.mpr hr), ?_⟩
    intro hnone
    simp at hnone

/-- A stored row for the C7 counterexample. -/
def c7row1 : ProspectRow :=
  { search_id := 1
    contact_name := "Alice"
    email := "Alice@Acme.com"
    company := "Acme"
    title := ""
    linkedin_url := ""
    location := ""
    fit_score := 0
    fit_reason := ""
    email_confidence := "unknown"
    source := "agent" }

/-- C7 counterexample: the duplicate-detection key is case-SENSITIVE —
a second record agreeing with a stored one on (email, company) only up
to case is inserted as a new row rather than reported as a duplicate —
and a record without an email is never deduplicated: two identical
(name, company) rows with empty email both insert.  Both behaviours
contradict the claimed case-insensitive key with (name, company)
fallback. -/
theorem c7_counterexample :
    (pyLower "alice@acme.com" = pyLower c7row1.email ∧
      (addProspect (addProspect {} c7row1).1
        { c7row1 with email := "alice@acme.com" }).2 ≠ none) ∧
    ((addProspect (addProspect {} { c7row1 with email := "" }).1
        { c7row1 with email := "" }).1).prospects.length = 2 := by
  decide

/-- C7 amended witness: an exact (case-sensitive) repeat of a stored
(email, company) pair is reported as a duplicate. -/
theorem c7_amended_witness :
    (addProspect (addProspect {} c7row1).1
      { c7row1 with contact_name := "Bob" }).2 = none := by
  apply (c7_amended (addProspect {} c7row1).1
    { c7row1 with contact_name := "Bob" }).1.mpr
  exact ⟨by decide, c7row1, by decide, rfl, rfl⟩

/-- Concrete contact shared by the C6 and C10 scenarios. -/
def c6contact : Contact :=
  { contact_name := "Alice Kim", email := "alice@acme.com", company := "Acme" }

/-- Concrete add_contacts input for C6. -/
def c6input : AddContactsInput := { contacts := [c6contact] }

/-- Concrete agent state for C6/C10. -/
def c6st : EFState := { num_companies := 5 }

/-- C6 counterexample: submitting the same record in two add_contacts
calls (one distinct dedup key) leaves one stored row, but the
accumulated-contacts list grows to 2 — beyond the number of distinct
keys — so the claim is false for the accumulated count. -/
theorem c6_counterexample :
    ((addContacts (addContacts c6st {} c6input).1
        (addContacts c6st {} c6input).2.1 c6input).1.accumulated).length = 2 ∧
    ((addContacts (addContacts c6st {} c6input).1
        (addContacts c6st {} c6input).2.1 c6input).2.1.prospects).length = 1 ∧
    ((effectiveContacts c6input ++ effectiveContacts c6input).map contactKey).toFinset.card
      = 1 ∧
    ¬ (((addContacts (addContacts c6st {} c6input).1
        (addContacts c6st {} c6input).2.1 c6input).1.accumulated).length ≤ 1) := by
  decide

/-- C6 amended: over two add_contacts calls whose records all carry a
non-empty email, the stored prospect table grows by at most the number
of distinct (email, company) keys across both calls; the
accumulated-contacts list, by contrast, appends every accepted
(non-junk-named) record of each call — it counts submissions, not
distinct keys, and can therefore exceed the number of distinct keys. -/
theorem c6_amended (st0 : EFState) (db0 : DB) (inp1 inp2 : AddContactsInput)
    (hne1 : effectiveContacts inp1 ≠ []) (hne2 : effectiveContacts inp2 ≠ [])
    (hmail : ∀ c ∈ effectiveContacts inp1 ++ effectiveContacts inp2, c.email ≠ "") :
    ((addContacts (addContacts st0 db0 inp1).1
        (addContacts st0 db0 inp1).2.1 inp2).2.1).prospects.length
      ≤ db0.prospects.length
        + ((effectiveContacts inp1 ++ effectiveContacts inp2).map
            contactKey).toFinset.card ∧
    ((addContacts (addContacts st0 db0 inp1).1
        (addContacts st0 db0 inp1).2.1 inp2).1).accumulated
      = st0.accumulated
        ++ (effectiveContacts inp1).filter (fun c => !(isJunkName c.contact_name))
        ++ (effectiveContacts inp2).filter (fun c => !(isJunkName c.contact_name)) := by
  rw [addContacts_of_ne st0 db0 inp1 hne1]
  dsimp only
  rw [addContacts_of_ne _ _ inp2 hne2]
  dsimp only
  rw [sidOf_update, dbAfterSid_update]
  set F1 := (effectiveContacts inp1).foldl (processContact (sidOf st0 db0))
    (st0.accumulated, dbAfterSid st0 db0, {}) with hF1
  have ht := processContacts_tally_indep (sidOf st0 db0) (effectiveContacts inp2)
    F1.1 F1.2.1 {} F1.2.2
  have hfold : (effectiveContacts inp2).foldl (processContact (sidOf st0 db0))
      (F1.1, F1.2.1, F1.2.2)
      = (effectiveContacts inp1 ++ effectiveContacts inp2).foldl
          (processContact (sidOf st0 db0))
          (st0.accumulated, dbAfterSid st0 db0, {}) := by
    rw [List.foldl_append, ← hF1]
  constructor
  · rw [ht.2, hfold]
    refine le_trans (processContacts_db_bound (sidOf st0 db0)
      (effectiveContacts inp1 ++ effectiveContacts inp2) hmail
      st0.accumulated (dbAfterSid st0 db0) {}) ?_
    rw [dbAfterSid_prospects]
    exact Nat.add_le_add_left (freshKeyCount_le_toFinset _ _) _
  · rw [ht.1, hfold]
    rw [(processContacts_spec (sidOf st0 db0)
      (effectiveContacts inp1 ++ effectiveContacts inp2)
      st0.accumulated (dbAfterSid st0 db0) {}).1]
    simp [List.filter_append, List.append_assoc]

/-- C6 amended witness: for the concrete duplicate scenario the stored
table stays within the single distinct key. -/
theorem c6_amended_witness :
    ((addContacts (addContacts c6st {} c6input).1
        (addContacts c6st {} c6input).2.1 c6input).2.1).prospects.length ≤ 1 := by
  have h := (c6_amended c6st {} c6input c6input (by decide) (by decide)
    (by decide)).1
  have hcard : ((effectiveContacts c6input ++ effectiveContacts c6input).map
      contactKey).toFinset.card = 1 := by decide
  rw [hcard] at h
  simpa using h

/-- C10: in every add_contacts call, a contact whose name is empty or a
junk placeholder (unknown / clinical team / n/a / none / tbd,
case-insensitively), or starts with a bracket, or contains
"verification" or "processing", is rejected: it is not appended to the
accumulated list, contributes no stored row, and is counted exactly in
the rejected tally of the returned summary. -/
theorem c10_junk_rejected (st : EFState) (db : DB) (input : AddContactsInput)
    (hne : effectiveContacts input ≠ []) :
    ((addContacts st db input).1.accumulated
      = st.accumulated
        ++ (effectiveContacts input).filter fun c => !(isJunkName c.contact_name)) ∧
    (∃ newRows, (addContacts st db input).2.1.prospects = db.prospects ++ newRows ∧
      ∀ r ∈ newRows, ∃ c ∈ effectiveContacts input,
        isJunkName c.contact_name = false ∧ r = rowOfContact (sidOf st db) c) ∧
    (∃ savedN dupesN,
      savedN + dupesN
          = ((effectiveContacts input).filter fun c =>
              !(isJunkName c.contact_name)).length ∧
      (addContacts st db input).2.2
        = addContactsSummary
            { saved := savedN, dupes := dupesN,
              skipped := ((effectiveContacts input).filter fun c =>
                isJunkName c.contact_name).length }
            ((addContacts st db input).1.accumulated) st.num_companies) := by
  rw [addContacts_of_ne st db input hne]
  dsimp only
  obtain ⟨h1, h2, h3, _, rows, hr1, hr2⟩ := processContacts_spec (sidOf st db)
    (effectiveContacts input) st.accumulated (dbAfterSid st db) {}
  refine ⟨h1, ⟨rows, ?_, hr2⟩, ?_⟩
  · rw [hr1, dbAfterSid_prospects]
  · refine ⟨((effectiveContacts input).foldl (processContact (sidOf st db))
        (st.accumulated, dbAfterSid st db, {})).2.2.saved,
      ((effectiveContacts input).foldl (processContact (sidOf st db))
        (st.accumulated, dbAfterSid st db, {})).2.2.dupes, by simpa using h3, ?_⟩
    have hsk : ((effectiveContacts input).foldl (processContact (sidOf st db))
        (st.accumulated, dbAfterSid st db, {})).2.2.skipped
        = ((effectiveContacts input).filter fun c =>
            isJunkName c.contact_name).length := by
      simpa using h2
    congr 1
    rw [← hsk]

/-- Concrete add_contacts input for the C10 witness: one real contact and
one junk placeholder. -/
def c10input : AddContactsInput :=
  { contacts := [c6contact,
      { contact_name := "Unknown", email := "x@y.z", company := "Y" }] }

/-- C10 witness: the junk-named contact is dropped from the accumulated
list. -/
theorem c10_witness :
    (addContacts c6st {} c10input).1.accumulated = [c6contact] := by
  have h := (c10_junk_rejected c6st {} c10input (by decide)).1
  rw [h]
  decide

/-- Filtering a list by p and by its negation partitions it. -/
theorem length_filter_add_length_filter_not {α : Type} (p : α → Bool)
    (l : List α) :
    (l.filter p).length + (l.filter fun a => !(p a)).length = l.length := by
  induction l with
  | nil => rfl
  | cons a l ih =>
    by_cases hp : p a = true
    · rw [List.filter_cons_of_pos hp, List.filter_cons_of_neg (by simp [hp])]
      simp only [List.length_cons]
      omega
    · have hpf : p a = false := by
        revert hp
        cases p a <;> simp
      rw [List.filter_cons_of_neg (by simp [hpf]),
        List.filter_cons_of_pos (by simp [hpf])]
      simp only [List.length_cons]
      omega

/-- Filtering a mapped list filters the underlying list. -/
theorem filter_of_map {α β : Type} (f : α → β) (p : β → Bool) (l : List α) :
    (l.map f).filter p = (l.filter fun a => p (f a)).map f := by
  induction l with
  | nil => rfl
  | cons a l ih =>
    simp only [List.map_cons, List.filter_cons]
    by_cases hp : p (f a) = true
    · simp [hp, ih]
    · simp [hp, ih]

/-- C9: in _auto_save_hunter_contacts, for a batch of 10 matched contacts
with non-empty names, an extractable domain, 6 contacts at confidence
≥ 70 and 4 below, of which the Findymail lookup resolves exactly 3, the
built save list holds exactly 6 records tagged "high", 3 tagged
"verified" (each carrying the Findymail email of its contact), and 1
tagged "unverified" — 10 records submitted for persistence in all. -/
theorem c9_confidence_tiered (matched : List HunterContact) (company : String)
    (fm : String → String)
    (hlen : matched.length = 10)
    (hnames : ∀ c ∈ matched, pyTrim c.name ≠ "")
    (hhigh : (matched.filter fun c => decide (c.confidence ≥ 70)).length = 6)
    (hdom : (extractDomain matched).isSome = true)
    (hver : ((matched.filter fun c => !(decide (c.confidence ≥ 70))).filter
        fun c => fm c.name != "").length = 3) :
    (buildContactsForSave matched company fm).length = 10 ∧
    ((buildContactsForSave matched company fm).filter fun r =>
        r.email_confidence == some "high").length = 6 ∧
    ((buildContactsForSave matched company fm).filter fun r =>
        r.email_confidence == some "verified").length = 3 ∧
    ((buildContactsForSave matched company fm).filter fun r =>
        r.email_confidence == some "unverified").length = 1 ∧
    (∀ r ∈ buildContactsForSave matched company fm,
      r.email_confidence = some "verified" → r.email = fm r.contact_name) := by
  have hhc : highConfContacts matched
      = matched.filter fun c => decide (c.confidence ≥ 70) := by
    unfold highConfContacts
    apply List.filter_congr
    intro c hc
    rw [decide_eq_decide]
    exact ⟨fun h => h.2, fun h => ⟨hnames c hc, h⟩⟩
  have hnc : needsVerifyContacts matched
      = matched.filter fun c => !(decide (c.confidence ≥ 70)) := by
    unfold needsVerifyContacts
    apply List.filter_congr
    intro c hc
    rw [← decide_not, decide_eq_decide]
    exact ⟨fun h => h.2, fun h => ⟨hnames c hc, h⟩⟩
  have hsplit := length_filter_add_length_filter_not
    (fun c => decide (c.confidence ≥ 70)) matched
  have hlenN : (needsVerifyContacts matched).length = 4 := by
    rw [hnc]
    omega
  have hlenH : (highConfContacts matched).length = 6 := by
    rw [hhc, hhigh]
  have hCV : (decide (needsVerifyContacts matched ≠ [])
      && (extractDomain matched).isSome) = true := by
    rw [hdom]
    have hne : needsVerifyContacts matched ≠ [] := by
      intro h0
      rw [h0] at hlenN
      simp at hlenN
    simp [hne]
  have hbuild : buildContactsForSave matched company fm
      = (highConfContacts matched).map (highConfRecord company)
        ++ (needsVerifyContacts matched).map (lowConfRecord company true fm) := by
    unfold buildContactsForSave
    dsimp only
    rw [hCV]
  have hlover : ((needsVerifyContacts matched).map
        (lowConfRecord company true fm)).filter
        (fun r => r.email_confidence == some "verified")
      = ((needsVerifyContacts matched).filter fun c => fm c.name != "").map
          (lowConfRecord company true fm) := by
    rw [filter_of_map]
    congr 1
    apply List.filter_congr
    intro c _
    unfold lowConfRecord
    by_cases hb : (fm c.name != "") = true
    · simp [hb]
    · have hbf : (fm c.name != "") = false := by
        revert hb
        cases fm c.name != "" <;> simp
      simp [hbf]
  have hlounver : ((needsVerifyContacts matched).map
        (lowConfRecord company true fm)).filter
        (fun r => r.email_confidence == some "unverified")
      = ((needsVerifyContacts matched).filter fun c => !(fm c.name != "")).map
          (lowConfRecord company true fm) := by
    rw [filter_of_map]
    congr 1
    apply List.filter_congr
    intro c _
    unfold lowConfRecord
    by_cases hb : (fm c.name != "") = true
    · simp [hb]
    · have hbf : (fm c.name != "") = false := by
        revert hb
        cases fm c.name != "" <;> simp
      simp [hbf]
  have hhifull : ((highConfContacts matched).map (highConfRecord company)).filter
        (fun r => r.email_confidence == some "high")
      = (highConfContacts matched).map (highConfRecord company) := by
    apply List.filter_eq_self.mpr
    intro r hr
    obtain ⟨c, _, rfl⟩ := List.mem_map.mp hr
    rfl
  have hhinone : ∀ tag : String, tag ≠ "high" →
      ((highConfContacts matched).map (highConfRecord company)).filter
        (fun r => r.email_confidence == some tag) = [] := by
    intro tag htag
    apply List.filter_eq_nil_iff.mpr
    intro r hr
    obtain ⟨c, _, rfl⟩ := List.mem_map.mp hr
    simp [highConfRecord]
    exact fun h => htag h.symm
  have hlonohigh : ((needsVerifyContacts matched).map
        (lowConfRecord company true fm)).filter
        (fun r => r.email_confidence == some "high") = [] := by
    apply List.filter_eq_nil_iff.mpr
    intro r hr
    obtain ⟨c, _, rfl⟩ := List.mem_map.mp hr
    unfold lowConfRecord
    split <;> simp
  have hversplit := length_filter_add_length_filter_not
    (fun c => fm c.name != "") (needsVerifyContacts matched)
  have hverN : ((needsVerifyContacts matched).filter
      fun c => fm c.name != "").length = 3 := by
    rw [hnc]
    exact hver
  refine ⟨?_, ?_, ?_, ?_, ?_⟩
  · rw [hbuild, List.length_append, List.length_map, List.length_map,
      hlenH, hlenN]
  · rw [hbuild, List.filter_append, hhifull, hlonohigh]
    rw [List.length_append, List.length_map, hlenH]
    rfl
  · rw [hbuild, List.filter_append, hhinone "verified" (by decide), hlover]
    rw [List.nil_append, List.length_map, hverN]
  · rw [hbuild, List.filter_append, hhinone "unverified" (by decide), hlounver]
    rw [List.nil_append, List.length_map]
    omega
  · intro r hr hconf
    rw [hbuild] at hr
    rcases List.mem_append.mp hr with hr2 | hr2
    · obtain ⟨c, _, rfl⟩ := List.mem_map.mp hr2
      simp [highConfRecord] at hconf
    · obtain ⟨c, _, rfl⟩ := List.mem_map.mp hr2
      unfold lowConfRecord at hconf ⊢
      by_cases hb : (true && (fm c.name != "")) = true
      · rw [if_pos hb]
      · rw [if_neg hb] at hconf
        simp at hconf

/-- Concrete batch for the C9 witness: 6 high-confidence and 4
low-confidence contacts sharing one email domain. -/
def c9matched : List HunterContact :=
  [ { name := "H1", email := "h1@d.co", confidence := 90 },
    { name := "H2", email := "h2@d.co", confidence := 85 },
    { name := "H3", email := "h3@d.co", confidence := 80 },
    { name := "H4", email := "h4@d.co", confidence := 75 },
    { name := "H5", email := "h5@d.co", confidence := 72 },
    { name := "H6", email := "h6@d.co", confidence := 70 },
    { name := "L1", email := "l1@d.co", confidence := 50 },
    { name := "L2", email := "l2@d.co", confidence := 40 },
    { name := "L3", email := "l3@d.co", confidence := 30 },
    { name := "L4", email := "l4@d.co", confidence := 20 } ]

/-- Findymail oracle for the C9 witness: resolves three of the four
low-confidence names. -/
def c9fm : String → String :=
  fun n => if n = "L1" ∨ n = "L2" ∨ n = "L3" then "v@d.co" else ""

/-- C9 witness: the concrete batch yields 10 submitted records, 3 of them
tagged "verified". -/
theorem c9_witness :
    (buildContactsForSave c9matched "DCo" c9fm).length = 10 ∧
    ((buildContactsForSave c9matched "DCo" c9fm).filter fun r =>
        r.email_confidence == some "verified").length = 3 := by
  have h := c9_confidence_tiered c9matched "DCo" c9fm (by decide) (by decide)
    (by decide) (by decide) (by decide)
  exact ⟨h.1, h.2.2.1⟩

end ColdOutreach
